import Mathlib

/-!
Verification development for the web-crawler repository.

The definitions below are a shallow embedding of the repository's code:
`web_crawler/proxies.py`, `web_crawler/config.py`,
`web_crawler/strategies/crawl4ai.py`, `web_crawler/strategies/user.py`
and `core/env.py`.  Components of the deep-crawl engine that live in the
external `crawl4ai` library (filters, scorer, round-robin proxy strategy,
BFS / best-first traversal) are not part of the repository's sources; those
are modelled from the specification, and each such definition says so in
its doc comment.  Strings are manipulated at the character-list level so
that every operation is executable and provable.
-/

/-! ### Character-level string utilities (model of Python `str` methods) -/

/-- Whitespace recognizer matching Python `str.strip`'s default set. -/
def isWsp (c : Char) : Bool :=
  c == ' ' || c == '\t' || c == '\n' || c == '\r' || c == '\x0b' || c == '\x0c'

/-- Model of Python `str.strip()` on a list of characters. -/
def trimChars (l : List Char) : List Char :=
  ((l.dropWhile isWsp).reverse.dropWhile isWsp).reverse

/-- Model of Python `str.split(':')`: splits at every colon, always returns
at least one (possibly empty) part. -/
def splitOnColon : List Char → List (List Char)
  | [] => [[]]
  | c :: rest =>
    if c = ':' then [] :: splitOnColon rest
    else
      match splitOnColon rest with
      | [] => [[c]]
      | p :: ps => (c :: p) :: ps

/-- Model of `':'.join(parts)` (also the f-string
`f"{ip}:{port}:{user}:{passwd}"` for a four-part split). -/
def joinColon : List (List Char) → List Char
  | [] => []
  | [p] => p
  | p :: ps => p ++ ':' :: joinColon ps

/-- Model of `','.join(parts)`. -/
def joinComma : List (List Char) → List Char
  | [] => []
  | [p] => p
  | p :: ps => p ++ ',' :: joinComma ps

theorem splitOnColon_ne_nil (l : List Char) : splitOnColon l ≠ [] := by
  induction l with
  | nil => simp [splitOnColon]
  | cons c rest ih =>
    rw [splitOnColon]
    by_cases h : c = ':'
    · simp [h]
    · rw [if_neg h]
      cases hsp : splitOnColon rest with
      | nil => simp
      | cons p ps => simp

/-- Rejoining the parts of a colon split recovers the original characters. -/
theorem joinColon_splitOnColon (l : List Char) : joinColon (splitOnColon l) = l := by
  induction l with
  | nil => rfl
  | cons c rest ih =>
    rw [splitOnColon]
    by_cases h : c = ':'
    · rw [if_pos h]
      cases hsp : splitOnColon rest with
      | nil => exact absurd hsp (splitOnColon_ne_nil rest)
      | cons p ps =>
        rw [hsp] at ih
        simp [joinColon, h, ih]
    · rw [if_neg h]
      cases hsp : splitOnColon rest with
      | nil => exact absurd hsp (splitOnColon_ne_nil rest)
      | cons p ps =>
        rw [hsp] at ih
        cases ps with
        | nil => simpa [joinColon] using ih
        | cons q qs => simpa [joinColon] using ih

/-! ### Model of `core/env.py` (`EnvManager`) -/

/-- Process environment modelled as an association list; `envSet` shadows
earlier bindings, matching `os.environ[key] = value`. -/
structure Env where
  vars : List (String × String)
deriving Repr, DecidableEq

/-- Model of `EnvManager.get`: the most recent binding of the key. -/
def envGet (e : Env) (k : String) : Option String :=
  (e.vars.find? (fun p => p.1 == k)).map (·.2)

/-- Model of `EnvManager.set` (`os.environ[key] = value`). -/
def envSet (e : Env) (k v : String) : Env :=
  ⟨(k, v) :: e.vars⟩

/-- Python falsiness of an optional string (`if not proxies_file_path`). -/
def isFalsy : Option String → Bool
  | none => true
  | some s => s == ""

/-! ### Model of `web_crawler/proxies.py` -/

/-- The error outcomes of proxy loading/configuration.  `missingPath`,
`fileNotFound`, `emptyFile` and `invalidLine` are the `ValueError` /
`FileNotFoundError` raises of `load_proxies_from_file`; `emptyProxyList`
is the rotator's construction failure (spec §4.3). -/
inductive LoadErr
  | missingPath
  | fileNotFound (path : String)
  | emptyFile
  | invalidLine (lineNo : Nat) (line : List Char)
  | emptyProxyList
deriving Repr, DecidableEq

/-- The parsing loop of `load_proxies_from_file`: iterates over the file's
lines (with `n` the 1-based number of the first line), strips each line,
skips blank lines, keeps a line splitting into exactly four colon-separated
fields (re-joined by the f-string), and raises on the first malformed
line. -/
def parseProxyLines : Nat → List (List Char) → Except LoadErr (List (List Char))
  | _, [] => .ok []
  | n, l :: rest =>
    let s := trimChars l
    if s = [] then
      parseProxyLines (n + 1) rest
    else if (splitOnColon s).length = 4 then
      match parseProxyLines (n + 1) rest with
      | .ok tl => .ok (joinColon (splitOnColon s) :: tl)
      | .error e => .error e
    else
      .error (.invalidLine n s)

/-- Model of `load_proxies_from_file`.  The file system is a map from paths
to the file's list of lines (a missing file maps to `none`).  The returned
pair carries the environment after the call: the `PROXIES` / `PROXY_COUNT`
variables are written only on full success, which is the source's control
flow (both `EnvManager.set` calls come after the parse loop). -/
def load_proxies_from_file (fsys : String → Option (List (List Char)))
    (env : Env) (pathArg : Option String) :
    Except LoadErr (List (List Char)) × Env :=
  match (if isFalsy pathArg then envGet env "PROXIES_FILE" else pathArg) with
  | none => (.error .missingPath, env)
  | some p =>
    if p = "" then (.error .missingPath, env)
    else
      match fsys p with
      | none => (.error (.fileNotFound p), env)
      | some lines =>
        if lines = [] then (.error .emptyFile, env)
        else
          match parseProxyLines 1 lines with
          | .error e => (.error e, env)
          | .ok proxies =>
            let env1 := envSet env "PROXIES" (String.mk (joinComma proxies))
            let env2 := envSet env1 "PROXY_COUNT" (toString proxies.length)
            (.ok proxies, env2)

/-- Modelled from the spec: `crawl4ai.proxy_strategy.ProxyConfig`
(ProxyEntry `{host, port, username, password}`, §3) built by
`ProxyConfig.from_string` from an `ip:port:username:password` record. -/
structure ProxyCfg where
  host : String
  port : String
  username : String
  password : String
deriving Repr, DecidableEq

/-- Modelled from the spec: `ProxyConfig.from_string` parses one
`ip:port:username:password` record into its four fields. -/
def proxyConfigFromString (s : List Char) : ProxyCfg :=
  match splitOnColon s with
  | [h, p, u, pw] => ⟨String.mk h, String.mk p, String.mk u, String.mk pw⟩
  | _ => ⟨String.mk s, "", "", ""⟩

/-- Modelled from the spec: the round-robin proxy rotator
(`crawl4ai.proxy_strategy.RoundRobinProxyStrategy`, spec §4.3): an ordered
immutable entry list plus a mutable cursor. -/
structure RoundRobin where
  entries : List ProxyCfg
  cursor : Nat
deriving Repr, DecidableEq

/-- A dummy proxy entry used as the `getD` default. -/
def dummyProxy : ProxyCfg := ⟨"", "", "", ""⟩

/-- Modelled from the spec (§4.3): `next()` returns `entries[i]` and sets
`i := (i + 1) mod len(entries)`. -/
def rotatorNext (r : RoundRobin) : ProxyCfg × RoundRobin :=
  (r.entries.getD r.cursor dummyProxy,
   ⟨r.entries, (r.cursor + 1) % r.entries.length⟩)

/-- Modelled from the spec (§4.3): rotator construction fails fast when the
entry list is empty (`ConfigurationError`); otherwise the cursor starts
at the first entry. -/
def mkRoundRobin (entries : List ProxyCfg) : Except LoadErr RoundRobin :=
  if entries = [] then .error .emptyProxyList else .ok ⟨entries, 0⟩

/-- Model of `configure_proxies`: load the proxy file named by the
`PROXIES_FILE` environment variable, parse each record with
`ProxyConfig.from_string` in file order, and build the round-robin
rotation strategy over the resulting list. -/
def configure_proxies (fsys : String → Option (List (List Char))) (env : Env) :
    Except LoadErr (List ProxyCfg × RoundRobin) × Env :=
  match load_proxies_from_file fsys env none with
  | (.error e, env1) => (.error e, env1)
  | (.ok proxies, env1) =>
    let proxy_configs := proxies.map proxyConfigFromString
    match mkRoundRobin proxy_configs with
    | .error e => (.error e, env1)
    | .ok proxy_strategy => (.ok (proxy_configs, proxy_strategy), env1)

/-- The rotator state after `k` calls to `next()`. -/
def rotatorStateAt (r : RoundRobin) : Nat → RoundRobin
  | 0 => r
  | k + 1 => (rotatorNext (rotatorStateAt r k)).2

/-- The proxy handed out by the `k`-th call to `next()` (counting from 0). -/
def proxyAt (r : RoundRobin) (k : Nat) : ProxyCfg :=
  (rotatorNext (rotatorStateAt r k)).1

theorem rotatorStateAt_entries (r : RoundRobin) (k : Nat) :
    (rotatorStateAt r k).entries = r.entries := by
  induction k with
  | zero => rfl
  | succ k ih => simp [rotatorStateAt, rotatorNext, ih]

theorem rotatorStateAt_cursor (l : List ProxyCfg) (k : Nat) (hl : l ≠ []) :
    (rotatorStateAt ⟨l, 0⟩ k).cursor = k % l.length := by
  induction k with
  | zero =>
    simp [rotatorStateAt, Nat.mod_eq_of_lt, List.length_pos.mpr hl]
  | succ k ih =>
    have he := rotatorStateAt_entries ⟨l, 0⟩ k
    simp only [rotatorStateAt, rotatorNext, he, ih]
    exact Nat.mod_add_mod k l.length 1

theorem proxyAt_mod (l : List ProxyCfg) (k : Nat) (hl : l ≠ []) :
    proxyAt ⟨l, 0⟩ k = l.getD (k % l.length) dummyProxy := by
  simp [proxyAt, rotatorNext, rotatorStateAt_entries, rotatorStateAt_cursor l k hl]

theorem map_range_getD_mod (l : List ProxyCfg) :
    (List.range l.length).map (fun i => l.getD (i % l.length) dummyProxy) = l := by
  apply List.ext_getElem (by simp)
  intro i h1 h2
  have hi : i < l.length := by simpa using h2
  have hr : i < (List.range l.length).length := by simpa using hi
  rw [List.getElem_map, List.getElem_range, Nat.mod_eq_of_lt hi,
    List.getD_eq_getElem l dummyProxy hi]

theorem mkRoundRobin_ok (entries : List ProxyCfg) (rot : RoundRobin)
    (h : mkRoundRobin entries = .ok rot) :
    entries ≠ [] ∧ rot = ⟨entries, 0⟩ := by
  unfold mkRoundRobin at h
  by_cases he : entries = []
  · simp [he] at h
  · simp [he] at h
    exact ⟨he, h.symm⟩

theorem configure_proxies_ok (fsys : String → Option (List (List Char)))
    (env : Env) (cfgs : List ProxyCfg) (rot : RoundRobin) (env1 : Env)
    (h : configure_proxies fsys env = (.ok (cfgs, rot), env1)) :
    rot = ⟨cfgs, 0⟩ ∧ cfgs ≠ [] ∧
    ∃ proxies, (load_proxies_from_file fsys env none).1 = .ok proxies ∧
      cfgs = proxies.map proxyConfigFromString := by
  unfold configure_proxies at h
  cases hload : load_proxies_from_file fsys env none with
  | mk res env2 =>
    rw [hload] at h
    cases res with
    | error e => simp at h
    | ok proxies =>
      simp only at h
      cases hmk : mkRoundRobin (proxies.map proxyConfigFromString) with
      | error e => rw [hmk] at h; simp at h
      | ok rot2 =>
        rw [hmk] at h
        simp only [Prod.mk.injEq, Except.ok.injEq, Prod.mk.injEq] at h
        obtain ⟨⟨hc, hr⟩, henv⟩ := h
        subst hc
        subst hr
        have := mkRoundRobin_ok _ _ hmk
        exact ⟨this.2, this.1, proxies, by simp [hload], rfl⟩

/-- C3. Proxy rotation is round-robin over the loaded entries in file
order: the rotator built by `configure_proxies` starts at the first entry,
its entry list is exactly the parsed records of the proxy file in file
order, the `k`-th request (counting from 0, retries included) uses entry
`k mod P`, the first `P` requests use the `P` entries exactly once each in
order, and the assignment sequence repeats with period `P`. -/
theorem c3_proxy_rotation_round_robin (fsys : String → Option (List (List Char)))
    (env : Env) (cfgs : List ProxyCfg) (rot : RoundRobin) (env1 : Env)
    (h : configure_proxies fsys env = (.ok (cfgs, rot), env1)) :
    rot.entries = cfgs ∧ rot.cursor = 0 ∧ cfgs ≠ [] ∧
    (∃ proxies, (load_proxies_from_file fsys env none).1 = .ok proxies ∧
       cfgs = proxies.map proxyConfigFromString) ∧
    (∀ k, proxyAt rot k = cfgs.getD (k % cfgs.length) dummyProxy) ∧
    (List.range cfgs.length).map (fun k => proxyAt rot k) = cfgs ∧
    (∀ k, proxyAt rot (k + cfgs.length) = proxyAt rot k) := by
  obtain ⟨hrot, hne, hfile⟩ := configure_proxies_ok fsys env cfgs rot env1 h
  subst hrot
  refine ⟨rfl, rfl, hne, hfile, fun k => proxyAt_mod cfgs k hne, ?_, fun k => ?_⟩
  · have : (fun k => proxyAt ⟨cfgs, 0⟩ k) =
        (fun k => cfgs.getD (k % cfgs.length) dummyProxy) := by
      funext k
      exact proxyAt_mod cfgs k hne
    rw [this]
    exact map_range_getD_mod cfgs
  · rw [proxyAt_mod cfgs _ hne, proxyAt_mod cfgs k hne, Nat.add_mod_right]

/-- A proxy-file line is malformed when it is non-blank after stripping but
does not split into exactly four colon-separated fields. -/
def badLine (l : List Char) : Bool :=
  !(trimChars l).isEmpty && (splitOnColon (trimChars l)).length != 4

theorem parseProxyLines_error_of_bad (lines : List (List Char)) :
    ∀ n, (∃ l ∈ lines, badLine l = true) →
      ∃ j, j < lines.length ∧ badLine (lines.getD j []) = true ∧
        parseProxyLines n lines =
          .error (.invalidLine (n + j) (trimChars (lines.getD j []))) := by
  induction lines with
  | nil => intro n h; simp at h
  | cons l rest ih =>
    intro n h
    by_cases hb : badLine l = true
    · refine ⟨0, by simp, by simpa using hb, ?_⟩
      have hne : ¬ trimChars l = [] := by
        simp [badLine] at hb
        simpa [List.isEmpty_iff] using hb.1
      have hlen : ¬ (splitOnColon (trimChars l)).length = 4 := by
        simp [badLine] at hb
        exact hb.2
      simp [parseProxyLines, hne, hlen]
    · have hrest : ∃ l2 ∈ rest, badLine l2 = true := by
        obtain ⟨l2, hmem, hl2⟩ := h
        cases hmem with
        | head => exact absurd hl2 hb
        | tail _ hm => exact ⟨l2, hm, hl2⟩
      by_cases hblank : trimChars l = []
      · obtain ⟨j, hj, hbad, heq⟩ := ih (n + 1) hrest
        refine ⟨j + 1, by simpa using Nat.succ_lt_succ hj, by simpa using hbad, ?_⟩
        have : n + 1 + j = n + (j + 1) := by omega
        simp [parseProxyLines, hblank, this ▸ heq]
      · have hlen : (splitOnColon (trimChars l)).length = 4 := by
          by_contra hlen
          exact hb (by simp [badLine, List.isEmpty_iff, hblank, hlen])
        obtain ⟨j, hj, hbad, heq⟩ := ih (n + 1) hrest
        refine ⟨j + 1, by simpa using Nat.succ_lt_succ hj, by simpa using hbad, ?_⟩
        have harith : n + 1 + j = n + (j + 1) := by omega
        rw [harith] at heq
        simp [parseProxyLines, hblank, hlen, heq]

/-- C4. A malformed proxy record aborts loading entirely: if any non-empty
line of the file does not split into exactly four colon-separated fields,
`load_proxies_from_file` raises a `ValueError` identifying a malformed line
(by its 1-based number and stripped content) and produces no proxy list at
all. -/
theorem c4_malformed_record_aborts_loading
    (fsys : String → Option (List (List Char))) (env : Env)
    (p : String) (lines : List (List Char))
    (hp : p ≠ "") (hfs : fsys p = some lines)
    (hbad : ∃ l ∈ lines, badLine l = true) :
    ∃ j, j < lines.length ∧ badLine (lines.getD j []) = true ∧
      (load_proxies_from_file fsys env (some p)).1 =
        .error (.invalidLine (1 + j) (trimChars (lines.getD j []))) ∧
      ∀ ps, (load_proxies_from_file fsys env (some p)).1 ≠ .ok ps := by
  obtain ⟨j, hj, hbadj, heq⟩ := parseProxyLines_error_of_bad lines 1 hbad
  have hlines : lines ≠ [] := by
    intro hnil
    subst hnil
    simp at hbad
  refine ⟨j, hj, hbadj, ?_, ?_⟩
  · simp [load_proxies_from_file, isFalsy, hp, hfs, hlines, heq]
  · intro ps
    simp [load_proxies_from_file, isFalsy, hp, hfs, hlines, heq]

theorem parseProxyLines_ok_shape (lines : List (List Char)) :
    ∀ n ps, parseProxyLines n lines = .ok ps →
      ps = (lines.map trimChars).filter (fun s => !s.isEmpty) := by
  induction lines with
  | nil =>
    intro n ps h
    simp [parseProxyLines] at h
    simp [h]
  | cons l rest ih =>
    intro n ps h
    by_cases hblank : trimChars l = []
    · rw [parseProxyLines] at h
      simp only [hblank, if_pos rfl] at h
      simpa [hblank] using ih (n + 1) ps h
    · rw [parseProxyLines] at h
      simp only [if_neg hblank] at h
      by_cases hlen : (splitOnColon (trimChars l)).length = 4
      · rw [if_pos hlen] at h
        cases hrest : parseProxyLines (n + 1) rest with
        | error e => rw [hrest] at h; simp at h
        | ok tl =>
          rw [hrest] at h
          simp only [Except.ok.injEq] at h
          rw [← h, joinColon_splitOnColon]
          have := ih (n + 1) tl hrest
          simp [hblank, List.isEmpty_iff, this]
      · rw [if_neg hlen] at h
        simp at h

/-- C10. Atomicity of the environment side effects of
`load_proxies_from_file`: whenever loading fails (missing path, missing
file, empty file, malformed record) the environment is returned unchanged,
because `PROXIES` / `PROXY_COUNT` are written only after the whole file
has parsed; on success `PROXY_COUNT` holds the decimal string of the
length of the returned list, `PROXIES` its comma-joined entries, and the
returned list is the file's stripped lines in file order with blank lines
skipped. -/
theorem c10_env_side_effects_atomic
    (fsys : String → Option (List (List Char))) (env : Env)
    (pathArg : Option String) :
    (∀ e, (load_proxies_from_file fsys env pathArg).1 = .error e →
       (load_proxies_from_file fsys env pathArg).2 = env) ∧
    (∀ ps, (load_proxies_from_file fsys env pathArg).1 = .ok ps →
       envGet (load_proxies_from_file fsys env pathArg).2 "PROXY_COUNT" =
         some (toString ps.length) ∧
       envGet (load_proxies_from_file fsys env pathArg).2 "PROXIES" =
         some (String.mk (joinComma ps)) ∧
       ∃ p lines, fsys p = some lines ∧
         ps = (lines.map trimChars).filter (fun s => !s.isEmpty)) := by
  unfold load_proxies_from_file
  cases hpath : (if isFalsy pathArg then envGet env "PROXIES_FILE" else pathArg) with
  | none => simp
  | some p =>
    by_cases hp : p = ""
    · simp [hp]
    · simp only [if_neg hp]
      cases hfs : fsys p with
      | none => simp
      | some lines =>
        by_cases hnil : lines = []
        · simp [hnil]
        · simp only [if_neg hnil]
          cases hparse : parseProxyLines 1 lines with
          | error e => simp
          | ok proxies =>
            simp only []
            constructor
            · intro e he
              simp at he
            · intro ps hps
              simp only [Except.ok.injEq] at hps
              subst hps
              refine ⟨?_, ?_, p, lines, hfs, parseProxyLines_ok_shape lines 1 _ hparse⟩
              · simp [envGet, envSet]
              · simp [envGet, envSet]

theorem parseProxyLines_all_blank (lines : List (List Char)) :
    ∀ n, (∀ l ∈ lines, trimChars l = []) → parseProxyLines n lines = .ok [] := by
  induction lines with
  | nil => intro n _; rfl
  | cons l rest ih =>
    intro n h
    have hl : trimChars l = [] := h l (List.mem_cons_self l rest)
    have hrest : ∀ l2 ∈ rest, trimChars l2 = [] :=
      fun l2 hm => h l2 (List.mem_cons_of_mem l hm)
    simp [parseProxyLines, hl, ih (n + 1) hrest]

/-- The four ways a crawl session can be offered zero proxies: no file path
configured, missing file, empty file, or a file containing only blank
lines. -/
def zeroProxyScenario (fsys : String → Option (List (List Char))) (env : Env) : Prop :=
  isFalsy (envGet env "PROXIES_FILE") = true ∨
  (∃ p, envGet env "PROXIES_FILE" = some p ∧ p ≠ "" ∧ fsys p = none) ∨
  (∃ p, envGet env "PROXIES_FILE" = some p ∧ p ≠ "" ∧ fsys p = some []) ∨
  (∃ p lines, envGet env "PROXIES_FILE" = some p ∧ p ≠ "" ∧ fsys p = some lines ∧
     lines ≠ [] ∧ ∀ l ∈ lines, trimChars l = [])

/-- C5. Zero proxies fails fast at construction time: in every scenario
that yields zero proxy entries — no path configured, missing file, empty
file, or a file of only blank lines — `configure_proxies` returns an
error (in the blank-lines case the error surfaces at the spec-modelled
rotator construction, `load_proxies_from_file` itself returning an empty
list), and conversely a successful `configure_proxies` never hands out an
empty rotation list. -/
theorem c5_zero_proxies_fail_fast
    (fsys : String → Option (List (List Char))) (env : Env) :
    (zeroProxyScenario fsys env →
       ∃ e, (configure_proxies fsys env).1 = .error e) ∧
    (∀ cfgs rot env1, configure_proxies fsys env = (.ok (cfgs, rot), env1) →
       cfgs ≠ [] ∧ rot.entries ≠ []) := by
  constructor
  · intro hscen
    rcases hscen with hfalsy | ⟨p, hget, hp, hfs⟩ | ⟨p, hget, hp, hfs⟩ |
        ⟨p, lines, hget, hp, hfs, hne, hblank⟩
    · cases hget2 : envGet env "PROXIES_FILE" with
      | none =>
        exact ⟨.missingPath, by simp [configure_proxies, load_proxies_from_file,
          isFalsy, hget2]⟩
      | some q =>
        have hq : q = "" := by simpa [isFalsy, hget2] using hfalsy
        exact ⟨.missingPath, by simp [configure_proxies, load_proxies_from_file,
          isFalsy, hget2, hq]⟩
    · exact ⟨.fileNotFound p, by simp [configure_proxies, load_proxies_from_file,
        isFalsy, hget, hp, hfs]⟩
    · exact ⟨.emptyFile, by simp [configure_proxies, load_proxies_from_file,
        isFalsy, hget, hp, hfs]⟩
    · refine ⟨.emptyProxyList, ?_⟩
      have hparse := parseProxyLines_all_blank lines 1 hblank
      simp [configure_proxies, load_proxies_from_file, isFalsy, hget, hp, hfs,
        hne, hparse, mkRoundRobin]
  · intro cfgs rot env1 h
    obtain ⟨hrot, hne, _⟩ := configure_proxies_ok fsys env cfgs rot env1 h
    subst hrot
    exact ⟨hne, hne⟩

/-! ### Model of `web_crawler/config.py` (`WebCrawlerConfig`) -/

/-- JSON values, as loaded by `json.load` from a configuration file. -/
inductive JsonVal
  | jstr (s : String)
  | jint (n : Int)
  | jarr (xs : List JsonVal)
  | jobj (fields : List (String × JsonVal))
  | jbool (b : Bool)
  | jnull

/-- The `WebCrawlerConfig` pydantic model's fields, as declared in the
source: `site_domain : str`, `url_patterns : List[str]`,
`max_pages : int`.  No range constraint (such as a positivity bound on
`max_pages`) is declared in the source. -/
structure WebCrawlerConfig where
  site_domain : String
  url_patterns : List String
  max_pages : Int
deriving Repr, DecidableEq

/-- First binding of a key among a JSON object's fields. -/
def lookupField (fields : List (String × JsonVal)) (k : String) : Option JsonVal :=
  (fields.find? (fun p => p.1 == k)).map (·.2)

/-- Interpret a JSON value as a list of strings. -/
def asStrList : JsonVal → Option (List String)
  | .jarr xs => xs.mapM (fun x => match x with | .jstr s => some s | _ => none)
  | _ => none

/-- Modelled from the spec / the source class declaration: pydantic
`model_validate` for `WebCrawlerConfig`.  The three declared fields must be
present with their declared types; unknown extra fields are ignored
(pydantic's default, and the spec's §9 design note records that the
original accepts arbitrary extra fields); no positivity constraint is
applied to `max_pages` because none is declared in the source. -/
def model_validate (j : JsonVal) : Except String WebCrawlerConfig :=
  match j with
  | .jobj fields =>
    match lookupField fields "site_domain",
        lookupField fields "url_patterns",
        lookupField fields "max_pages" with
    | some (.jstr sd), some pats, some (.jint mp) =>
      match asStrList pats with
      | some ps => .ok ⟨sd, ps, mp⟩
      | none => .error "url_patterns: expected a list of strings"
    | _, _, _ => .error "validation error"
  | _ => .error "expected a JSON object"

/-- Model of `WebCrawlerConfig.from_config_file`: read the JSON document at
the path and validate it against the model. -/
def from_config_file (fsys : String → Option JsonVal) (path : String) :
    Except String WebCrawlerConfig :=
  match fsys path with
  | none => .error "file not found"
  | some j => model_validate j

/-- The three fields of a well-formed configuration document. -/
def configFields (sd : String) (ps : List String) (mp : Int) :
    List (String × JsonVal) :=
  [("site_domain", .jstr sd),
   ("url_patterns", .jarr (ps.map .jstr)),
   ("max_pages", .jint mp)]

theorem asStrList_map_jstr (ps : List String) :
    asStrList (.jarr (ps.map .jstr)) = some ps := by
  rw [asStrList]
  induction ps with
  | nil => rfl
  | cons p rest ih =>
    simp only [List.map_cons, List.mapM_cons] at ih ⊢
    cases hm : (rest.map JsonVal.jstr).mapM
        (fun x => match x with | .jstr s => some s | _ => none) with
    | none => rw [hm] at ih; simp at ih
    | some l =>
      rw [hm] at ih
      simp_all [Option.bind]

/-- C8 counterexample. The claim says `from_config_file` accepts a
configuration only if `max_pages` is strictly positive; the source model
declares `max_pages : int` with no positivity constraint, so a document
with `max_pages = 0` is accepted. -/
theorem c8_counterexample_nonpositive_budget_accepted :
    from_config_file
      (fun p => if p = "config.json"
        then some (.jobj (configFields "example.com" [] 0)) else none)
      "config.json" = .ok ⟨"example.com", [], 0⟩ ∧ ¬ ((0 : Int) > 0) := by
  have ha : asStrList (.jarr ([] : List JsonVal)) = some [] := by
    simpa using asStrList_map_jstr []
  constructor
  · simp [from_config_file, model_validate, lookupField, configFields,
      List.find?, ha]
  · decide

/-- C8 (amended). `WebCrawlerConfig.from_config_file` accepts a
configuration document exactly when the three declared fields are present
with their declared types — string `site_domain`, list-of-strings
`url_patterns`, and integer `max_pages` of either sign (no positivity
constraint is enforced) — and any shape violation (missing file, non-object
document, missing field) is a construction-time failure. -/
theorem c8_config_validation_shape_only :
    (∀ (fsys : String → Option JsonVal) (path sd : String)
        (ps : List String) (mp : Int),
       fsys path = some (.jobj (configFields sd ps mp)) →
       from_config_file fsys path = .ok ⟨sd, ps, mp⟩) ∧
    (∀ (fsys : String → Option JsonVal) (path : String),
       fsys path = none → ∃ msg, from_config_file fsys path = .error msg) ∧
    (∀ fields, lookupField fields "site_domain" = none ∨
        lookupField fields "url_patterns" = none ∨
        lookupField fields "max_pages" = none →
       ∃ msg, model_validate (.jobj fields) = .error msg) ∧
    (∀ s, ∃ msg, model_validate (.jstr s) = .error msg) := by
  refine ⟨?_, ?_, ?_, ?_⟩
  · intro fsys path sd ps mp hfs
    simp [from_config_file, hfs, model_validate, lookupField, configFields,
      List.find?, asStrList_map_jstr]
  · intro fsys path hfs
    exact ⟨"file not found", by simp [from_config_file, hfs]⟩
  · intro fields h
    cases h1 : lookupField fields "site_domain" with
    | none => exact ⟨"validation error", by simp [model_validate, h1]⟩
    | some v1 =>
      cases h2 : lookupField fields "url_patterns" with
      | none =>
        refine ⟨"validation error", ?_⟩
        cases v1 <;> simp [model_validate, h1, h2]
      | some v2 =>
        cases h3 : lookupField fields "max_pages" with
        | none =>
          refine ⟨"validation error", ?_⟩
          cases v1 <;> simp [model_validate, h1, h2, h3]
        | some v3 =>
          rcases h with h | h | h
          · rw [h1] at h; cases h
          · rw [h2] at h; cases h
          · rw [h3] at h; cases h
  · intro s
    exact ⟨"expected a JSON object", rfl⟩

/-- C9 counterexample. The claim says `from_config_file` rejects any
document containing a field beyond the three declared ones; the modelled
pydantic default ignores unknown fields (the spec's §9 design note records
that the original accepts arbitrary extra fields), so a document carrying
an extra `telemetry` field is accepted. -/
theorem c9_counterexample_extra_field_accepted :
    model_validate
      (.jobj (("telemetry", .jstr "on") :: configFields "example.com" [] 1)) =
      .ok ⟨"example.com", [], 1⟩ := by
  have ha : asStrList (.jarr ([] : List JsonVal)) = some [] := by
    simpa using asStrList_map_jstr []
  simp [model_validate, lookupField, configFields, List.find?, ha]

/-- C9 (amended). Unknown extra fields in the configuration document are
silently ignored, not rejected: a document carrying any extra field under
a key different from the three declared ones, alongside the declared
fields, validates to exactly the declared fields' values.  (Rejecting unknown fields at load time is a
design goal recorded in the spec, not current behavior.) -/
theorem c9_extra_fields_ignored (sd : String) (ps : List String) (mp : Int)
    (k : String) (v : JsonVal)
    (h1 : k ≠ "site_domain") (h2 : k ≠ "url_patterns") (h3 : k ≠ "max_pages") :
    model_validate (.jobj ((k, v) :: configFields sd ps mp)) =
      .ok ⟨sd, ps, mp⟩ := by
  have b1 : (k == "site_domain") = false := beq_eq_false_iff_ne.mpr h1
  have b2 : (k == "url_patterns") = false := beq_eq_false_iff_ne.mpr h2
  have b3 : (k == "max_pages") = false := beq_eq_false_iff_ne.mpr h3
  simp [model_validate, lookupField, configFields, List.find?, b1, b2, b3,
    asStrList_map_jstr]

/-! ### Model of the URL filter pipeline (`crawl4ai.deep_crawling.filters`,
modelled from spec §4.1) and the factories in
`web_crawler/strategies/crawl4ai.py` -/

/-- The immutable filter data handed to the chain
(spec §3 FilterSpec). -/
structure FilterSpec where
  allowedDomains : List String
  urlPatterns : List String
  allowedContentTypes : List String
deriving Repr, DecidableEq

/-- Model of `get_filter` (source): a chain of domain filter, URL-pattern
filter and content-type filter, in that order. -/
def get_filter (allowed_domains url_patterns allowed_content_types : List String) :
    FilterSpec :=
  ⟨allowed_domains, url_patterns, allowed_content_types⟩

/-- Modelled from the spec: drop a leading `scheme://` from a URL's
characters. -/
def dropScheme : List Char → List Char
  | [] => []
  | ':' :: '/' :: '/' :: rest => rest
  | _ :: rest => dropScheme rest

/-- Modelled from the spec (§3): a URL's host — the characters after the
scheme separator and before the first slash. -/
def hostOf (u : String) : List Char :=
  (dropScheme u.toList).takeWhile (fun c => c != '/')

/-- Modelled from the spec (§4.1): the candidate's host equals, or is a
subdomain of, the given domain. -/
def onSiteDomain (domain : String) (u : String) : Bool :=
  hostOf u == domain.toList || ('.' :: domain.toList).isSuffixOf (hostOf u)

/-- Modelled from the spec (§4.1): the domain filter passes iff the host
equals, or is a subdomain of, one entry of `allowed_domains`; external
domains are always rejected. -/
def domainFilterPass (allowed : List String) (u : String) : Bool :=
  allowed.any (fun d => onSiteDomain d u)

/-- Modelled from the spec (§4.1): glob matching with fuel, where `*`
matches any run of characters including `/`, matching is case-sensitive
and anchored against the full string. -/
def globMatchFuel : Nat → List Char → List Char → Bool
  | 0, _, _ => false
  | _ + 1, [], t => t.isEmpty
  | f + 1, '*' :: ps, ts =>
    globMatchFuel f ps ts ||
      (match ts with
       | [] => false
       | _ :: ts2 => globMatchFuel f ('*' :: ps) ts2)
  | _ + 1, _ :: _, [] => false
  | f + 1, p :: ps, t :: ts => p == t && globMatchFuel f ps ts

/-- Anchored glob match of a pattern against a full URL string. -/
def globMatch (p u : String) : Bool :=
  globMatchFuel (p.toList.length + u.toList.length + 1) p.toList u.toList

/-- Modelled from the spec (§4.1): the URL-pattern filter passes iff the
URL matches at least one glob; an empty pattern list matches all URLs. -/
def patternFilterPass (patterns : List String) (u : String) : Bool :=
  patterns.isEmpty || patterns.any (fun p => globMatch p u)

/-- Primary token of a content-type header value (parameters after `;`
ignored). -/
def primaryToken (ct : String) : List Char :=
  trimChars (ct.toList.takeWhile (fun c => c != ';'))

/-- Modelled from the spec (§4.1): the content-type filter applies only
when content-type metadata is available (after fetch); pre-fetch
(no metadata) it passes. -/
def contentTypeFilterPass (allowed : List String) (ct : Option String) : Bool :=
  match ct with
  | none => true
  | some s => allowed.any (fun a => primaryToken s == a.toList)

/-- Modelled from the spec (§4.1): the chain is the AND of its filters,
evaluated left to right in the order `get_filter` assembles them (domain,
URL pattern, content type), short-circuiting on the first rejection. -/
def chainAdmit (f : FilterSpec) (u : String) (ct : Option String) : Bool :=
  domainFilterPass f.allowedDomains u &&
    (patternFilterPass f.urlPatterns u &&
      contentTypeFilterPass f.allowedContentTypes ct)

/-! ### Model of the relevance scorer
(`crawl4ai.deep_crawling.scorers.KeywordRelevanceScorer`, spec §4.2) -/

/-- The scorer's immutable data (spec §3 ScoreSpec). -/
structure ScoreSpec where
  keywords : List String
  weight : ℚ
deriving Repr, DecidableEq

/-- Model of `get_relevance_filter` (source): a keyword relevance scorer
over the given keywords and weight. -/
def get_relevance_filter (keywords : List String) (weight : ℚ) : ScoreSpec :=
  ⟨keywords, weight⟩

/-- Boolean substring check on character lists. -/
def containsSub (hay needle : List Char) : Bool :=
  hay.tails.any (fun t => needle.isPrefixOf t)

/-- Lower-cased characters of a string (case-insensitive matching). -/
def lowerChars (s : String) : List Char :=
  s.toList.map Char.toLower

/-- One keyword occurs case-insensitively as a substring of the text. -/
def keywordHit (text k : String) : Bool :=
  containsSub (lowerChars text) (lowerChars k)

/-- Modelled from the spec (§4.2): the score is the configured weight times
the fraction of configured keywords present case-insensitively in the
text. -/
def keywordRelevanceScore (sp : ScoreSpec) (text : String) : ℚ :=
  sp.weight *
    ((sp.keywords.countP (fun k => keywordHit text k) : ℚ) /
      (sp.keywords.length : ℚ))

theorem contentTypeFilterPass_none (allowed : List String) :
    contentTypeFilterPass allowed none = true := rfl

/-- C6. The scorer built by `get_relevance_filter(keywords, weight)`
returns the weight times the fraction of configured keywords occurring
case-insensitively as substrings of the text; with a weight in `[0, 1]`
the result lies in `[0, 1]`, and it equals 0 when no keyword is present
(not a neutral midpoint). -/
theorem c6_relevance_scoring (keywords : List String) (w : ℚ) (text : String)
    (hw0 : 0 ≤ w) (hw1 : w ≤ 1) :
    0 ≤ keywordRelevanceScore (get_relevance_filter keywords w) text ∧
    keywordRelevanceScore (get_relevance_filter keywords w) text ≤ 1 ∧
    ((∀ k ∈ keywords, keywordHit text k = false) →
       keywordRelevanceScore (get_relevance_filter keywords w) text = 0) ∧
    keywordRelevanceScore (get_relevance_filter keywords w) text =
      w * ((keywords.countP (fun k => keywordHit text k) : ℚ) /
        (keywords.length : ℚ)) := by
  have hc : keywords.countP (fun k => keywordHit text k) ≤ keywords.length :=
    List.countP_le_length _
  have hratio0 : (0 : ℚ) ≤
      ((keywords.countP (fun k => keywordHit text k) : ℚ) /
        (keywords.length : ℚ)) := by positivity
  have hratio1 : ((keywords.countP (fun k => keywordHit text k) : ℚ) /
      (keywords.length : ℚ)) ≤ 1 := by
    rcases Nat.eq_zero_or_pos keywords.length with hn | hn
    · simp [hn]
    · rw [div_le_one (by exact_mod_cast hn)]
      exact_mod_cast hc
  refine ⟨?_, ?_, ?_, rfl⟩
  · exact mul_nonneg hw0 hratio0
  · calc keywordRelevanceScore (get_relevance_filter keywords w) text
        ≤ 1 * 1 := by
          apply mul_le_mul hw1 hratio1 hratio0 (by norm_num)
      _ = 1 := by norm_num
  · intro hmiss
    have : keywords.countP (fun k => keywordHit text k) = 0 := by
      rw [List.countP_eq_zero]
      intro k hk
      simp [hmiss k hk]
    simp [keywordRelevanceScore, get_relevance_filter, this]

/-- C7. Filter composition: with `allowed_domains = ["example.com"]` and
`url_patterns = ["*news*"]`, evaluated pre-fetch (content type unknown),
`https://example.com/news/1` is admitted while
`https://example.com/sports/1` and `https://other.com/news/1` are
rejected; an empty pattern list matches all URLs; and the chain is the AND
of its filters in `get_filter`'s order (domain, URL pattern, content
type). -/
theorem c7_filter_composition :
    (∀ cts : List String,
       chainAdmit (get_filter ["example.com"] ["*news*"] cts)
         "https://example.com/news/1" none = true ∧
       chainAdmit (get_filter ["example.com"] ["*news*"] cts)
         "https://example.com/sports/1" none = false ∧
       chainAdmit (get_filter ["example.com"] ["*news*"] cts)
         "https://other.com/news/1" none = false) ∧
    (∀ u, patternFilterPass [] u = true) ∧
    (∀ f u ct, chainAdmit f u ct =
       (domainFilterPass f.allowedDomains u &&
         (patternFilterPass f.urlPatterns u &&
           contentTypeFilterPass f.allowedContentTypes ct))) := by
  refine ⟨fun cts => ⟨?_, ?_, ?_⟩, fun u => rfl, fun f u ct => rfl⟩
  · simp only [chainAdmit, get_filter, contentTypeFilterPass_none, Bool.and_true]
    decide
  · simp only [chainAdmit, get_filter, contentTypeFilterPass_none, Bool.and_true]
    decide
  · simp only [chainAdmit, get_filter, contentTypeFilterPass_none, Bool.and_true]
    decide

/-! ### Model of the deep-crawl strategies
(`BFSDeepCrawlStrategy` / `BestFirstCrawlingStrategy`, modelled from spec
§4.4–§4.5) and the factories of `web_crawler/strategies/crawl4ai.py` and
`web_crawler/strategies/user.py` -/

/-- The two interchangeable frontier disciplines (spec §4.4). -/
inductive CrawlMode
  | bfs
  | bestFirst
deriving Repr, DecidableEq

/-- The run configuration assembled by the factory functions: traversal
mode, depth/page budgets, external-link flag, filter chain, optional URL
scorer and proxy rotation strategy.  Per spec §4.1 there is no
`include_external` escape in this core: external-domain rejection is
enforced by the chain's domain filter, so the engine below does not
consult the flag (it is retained to mirror the source signatures). -/
structure CrawlerRunConfig where
  mode : CrawlMode
  maxDepth : Nat
  maxPages : Nat
  includeExternal : Bool
  filterChain : FilterSpec
  urlScorer : Option ScoreSpec
  proxyRotation : RoundRobin
deriving Repr, DecidableEq

/-- Default `max_depth` of `create_bfs_strategy` (source). -/
def bfsDefaultMaxDepth : Nat := 2

/-- Default `max_pages` of `create_bfs_strategy` (source). -/
def bfsDefaultMaxPages : Nat := 50

/-- Default `max_depth` of `create_bfcs_strategy` (source). -/
def bfcsDefaultMaxDepth : Nat := 2

/-- Default `max_pages` of `create_bfcs_strategy` (source). -/
def bfcsDefaultMaxPages : Nat := 25

/-- Model of `create_bfs_strategy` (source): a breadth-first strategy with
`include_external=False` hard-coded, the given filter chain, proxy
strategy and budgets, and no URL scorer. -/
def create_bfs_strategy (filter_chain : FilterSpec)
    (proxy_strategy : RoundRobin) (max_depth max_pages : Nat) :
    CrawlerRunConfig :=
  ⟨.bfs, max_depth, max_pages, false, filter_chain, none, proxy_strategy⟩

/-- Model of `create_bfcs_strategy` (source): a best-first strategy with
the given scorer, filter chain, proxy strategy, external-link flag
(default `False` at the call sites) and budgets. -/
def create_bfcs_strategy (scorer : ScoreSpec) (filter_chain : FilterSpec)
    (proxy_strategy : RoundRobin) (include_external_links : Bool)
    (max_depth max_pages : Nat) : CrawlerRunConfig :=
  ⟨.bestFirst, max_depth, max_pages, include_external_links, filter_chain,
   some scorer, proxy_strategy⟩

/-- Model of `web_content_discovery` (source): a BFS strategy over a
domain filter for `[domain]`, the given URL patterns and `text/html`
content, with proxies from `configure_proxies`. -/
def web_content_discovery (fsys : String → Option (List (List Char)))
    (env : Env) (domain : String) (url_patterns : List String)
    (max_pages : Nat) : Except LoadErr CrawlerRunConfig × Env :=
  let filter := get_filter [domain] url_patterns ["text/html"]
  match configure_proxies fsys env with
  | (.error e, env1) => (.error e, env1)
  | (.ok (_, proxy_strategy), env1) =>
    (.ok (create_bfs_strategy filter proxy_strategy bfsDefaultMaxDepth
       max_pages), env1)

/-- Model of `smart_crawl` (source): a best-first strategy for the domain
with patterns `["*news/daily*"]`, keywords `["news", "daily"]` at weight
`0.7`, `max_pages = 10`, and proxies from `configure_proxies`
(`include_external_links` left at its `False` default). -/
def smart_crawl (fsys : String → Option (List (List Char))) (env : Env)
    (domain : String) : Except LoadErr CrawlerRunConfig × Env :=
  let filter := get_filter [domain] ["*news/daily*"] ["text/html"]
  let relevant_keywords := get_relevance_filter ["news", "daily"] (7 / 10)
  match configure_proxies fsys env with
  | (.error e, env1) => (.error e, env1)
  | (.ok (_, proxy_strategy), env1) =>
    (.ok (create_bfcs_strategy relevant_keywords filter proxy_strategy false
       bfcsDefaultMaxDepth 10), env1)

/-! ### Model of the traversal engine (modelled from spec §4.4–§4.5) -/

/-- A frontier entry: URL, its depth and its discovery-time score
(spec §3 CrawlTarget plus the best-first priority). -/
structure FrontierEntry where
  url : String
  depth : Nat
  score : ℚ
deriving Repr, DecidableEq

/-- The session state owned by the engine (spec §3 CrawlSession): pending
frontier, visited set (URLs dispatched or enqueued), the fetched-pages
counter and the emitted results in emission order. -/
structure CrawlState where
  frontier : List FrontierEntry
  visited : List String
  pagesFetched : Nat
  results : List FrontierEntry
deriving Repr, DecidableEq

/-- Modelled from the spec (§4.2, §4.4): the discovery-time score of a
candidate, computed by the configured scorer (0 in BFS mode, which has no
scorer). -/
def scoreOf (cfg : CrawlerRunConfig) (u : String) : ℚ :=
  match cfg.urlScorer with
  | none => 0
  | some sp => keywordRelevanceScore sp u

/-- Modelled from the spec (§4.4): best-first pop — the earliest entry of
maximal score is removed (ties broken by insertion order). -/
def popBest : List FrontierEntry → Option (FrontierEntry × List FrontierEntry)
  | [] => none
  | e :: rest =>
    match popBest rest with
    | none => some (e, rest)
    | some (b, rest2) =>
      if b.score > e.score then some (b, e :: rest2) else some (e, rest)

/-- Modelled from the spec (§4.4): pop according to the frontier
discipline — FIFO for breadth-first, highest score (earliest on ties) for
best-first. -/
def popFrontier : CrawlMode → List FrontierEntry →
    Option (FrontierEntry × List FrontierEntry)
  | _, [] => none
  | .bfs, e :: rest => some (e, rest)
  | .bestFirst, l => popBest l

/-- Modelled from the spec (§4.4–§4.5): push the discovered links of a
popped page.  Each candidate is enqueued (and added to the visited set)
only if it is not already visited, its depth does not exceed `max_depth`
(over-depth push is a no-op), and the filter chain admits it pre-fetch. -/
def pushStep (cfg : CrawlerRunConfig) (d : Nat)
    (acc : List FrontierEntry × List String) (c : String) :
    List FrontierEntry × List String :=
  if acc.2.contains c then acc
  else if d + 1 ≤ cfg.maxDepth && chainAdmit cfg.filterChain c none then
    (acc.1 ++ [⟨c, d + 1, scoreOf cfg c⟩], acc.2 ++ [c])
  else acc

/-- Push every discovered link through `pushStep`, left to right. -/
def pushChildren (cfg : CrawlerRunConfig) (d : Nat) (children : List String)
    (fv : List FrontierEntry × List String) :
    List FrontierEntry × List String :=
  children.foldl (pushStep cfg d) fv

/-- Modelled from the spec (§4.5): the engine's main loop, driven by fuel.
Stop when the budget is exhausted (`pages_fetched` reached `max_pages`) or
the frontier is empty; otherwise pop a candidate, fetch and emit it,
increment the counter, and push its admissible links.  The link graph `g`
is the external fetch collaborator: `g u` is the list of links of page
`u`, in document order. -/
def crawlLoop (g : String → List String) (cfg : CrawlerRunConfig) :
    Nat → CrawlState → CrawlState
  | 0, s => s
  | fuel + 1, s =>
    if cfg.maxPages ≤ s.pagesFetched then s
    else
      match popFrontier cfg.mode s.frontier with
      | none => s
      | some (e, rest) =>
        crawlLoop g cfg fuel
          ⟨(pushChildren cfg e.depth (g e.url) (rest, s.visited)).1,
           (pushChildren cfg e.depth (g e.url) (rest, s.visited)).2,
           s.pagesFetched + 1, s.results ++ [e]⟩

/-- Modelled from the spec (§4.5): the seed is pushed at depth 0
unconditionally and immediately marked visited. -/
def initState (cfg : CrawlerRunConfig) (seed : String) : CrawlState :=
  ⟨[⟨seed, 0, scoreOf cfg seed⟩], [seed], 0, []⟩

/-- A crawl session: run the main loop from the seeded state. -/
def crawl (g : String → List String) (cfg : CrawlerRunConfig) (seed : String)
    (fuel : Nat) : CrawlState :=
  crawlLoop g cfg fuel (initState cfg seed)

theorem crawlLoop_budget (g : String → List String) (cfg : CrawlerRunConfig) :
    ∀ fuel s, s.pagesFetched ≤ cfg.maxPages →
      (crawlLoop g cfg fuel s).pagesFetched ≤ cfg.maxPages := by
  intro fuel
  induction fuel with
  | zero => intro s hs; exact hs
  | succ fuel ih =>
    intro s hs
    rw [crawlLoop]
    by_cases hguard : cfg.maxPages ≤ s.pagesFetched
    · rw [if_pos hguard]; exact hs
    · rw [if_neg hguard]
      cases hpop : popFrontier cfg.mode s.frontier with
      | none => exact hs
      | some er =>
        cases er with
        | mk e rest =>
          exact ih _ (by simpa using Nat.lt_of_not_le hguard)

theorem crawlLoop_results_length (g : String → List String)
    (cfg : CrawlerRunConfig) :
    ∀ fuel s, s.results.length = s.pagesFetched →
      (crawlLoop g cfg fuel s).results.length =
        (crawlLoop g cfg fuel s).pagesFetched := by
  intro fuel
  induction fuel with
  | zero => intro s hs; exact hs
  | succ fuel ih =>
    intro s hs
    rw [crawlLoop]
    by_cases hguard : cfg.maxPages ≤ s.pagesFetched
    · rw [if_pos hguard]; exact hs
    · rw [if_neg hguard]
      cases hpop : popFrontier cfg.mode s.frontier with
      | none => exact hs
      | some er =>
        cases er with
        | mk e rest =>
          exact ih _ (by simp [hs])

/-- Page `n` of the infinite chain graph used to witness budget
exhaustion. -/
def pageUrl (n : Nat) : String :=
  "https://example.com/" ++ String.mk (List.replicate n 'a')

/-- An infinite link graph: every page links to exactly one fresh page. -/
def chainGraph : String → List String := fun u => [u ++ "a"]

/-- A BFS run configuration with page budget and depth budget `N`, built
through the source's factory (`create_bfs_strategy`), match-all patterns
and the `example.com` domain filter. -/
def chainConfig (N : Nat) : CrawlerRunConfig :=
  create_bfs_strategy (get_filter ["example.com"] [] ["text/html"])
    ⟨[dummyProxy], 0⟩ N N

theorem pageUrl_succ (n : Nat) : pageUrl n ++ "a" = pageUrl (n + 1) := by
  apply String.ext
  show (pageUrl n ++ "a").data = (pageUrl (n + 1)).data
  simp only [pageUrl, String.data_append]
  show "https://example.com/".data ++ List.replicate n 'a' ++ "a".data =
    "https://example.com/".data ++ List.replicate (n + 1) 'a'
  rw [List.replicate_succ' n 'a', List.append_assoc]

theorem pageUrl_length (n : Nat) : (pageUrl n).length = 20 + n := by
  simp only [pageUrl, String.length_append, String.length_mk,
    List.length_replicate]
  rfl

theorem pageUrl_injective (a b : Nat) (h : pageUrl a = pageUrl b) : a = b := by
  have := congrArg String.length h
  rw [pageUrl_length, pageUrl_length] at this
  omega

theorem pageUrl_toList (n : Nat) :
    (pageUrl n).toList = "https://example.com/".toList ++ List.replicate n 'a' := by
  show (pageUrl n).data = "https://example.com/".data ++ List.replicate n 'a'
  simp [pageUrl, String.data_append]

theorem hostOf_pageUrl (n : Nat) : hostOf (pageUrl n) = "example.com".toList := by
  rw [hostOf, pageUrl_toList]
  show ((dropScheme ("https://example.com/".toList ++ List.replicate n 'a'))).takeWhile
    (fun c => c != '/') = "example.com".toList
  have hdrop : dropScheme ("https://example.com/".toList ++ List.replicate n 'a') =
      "example.com/".toList ++ List.replicate n 'a' := rfl
  rw [hdrop]
  rfl

theorem chainAdmit_chainConfig (N m : Nat) :
    chainAdmit (chainConfig N).filterChain (pageUrl m) none = true := by
  simp [chainAdmit, chainConfig, create_bfs_strategy, get_filter,
    domainFilterPass, onSiteDomain, hostOf_pageUrl, patternFilterPass,
    contentTypeFilterPass]

theorem pageUrl_not_mem_map_range (k m : Nat) (h : k ≤ m) :
    pageUrl m ∉ (List.range k).map pageUrl := by
  intro hmem
  obtain ⟨i, hi, heq⟩ := List.mem_map.mp hmem
  have hinj := pageUrl_injective i m heq
  have hik := List.mem_range.mp hi
  omega

/-- The engine state after `k` iterations of the chain-graph crawl. -/
def stateAt (k : Nat) : CrawlState :=
  ⟨[⟨pageUrl k, k, 0⟩], (List.range (k + 1)).map pageUrl, k,
   (List.range k).map (fun i => ⟨pageUrl i, i, 0⟩)⟩

theorem chain_push (N k : Nat) (hk : k < N) :
    pushChildren (chainConfig N) k (chainGraph (pageUrl k))
      ([], (stateAt k).visited) =
      ([⟨pageUrl (k + 1), k + 1, 0⟩], (List.range (k + 2)).map pageUrl) := by
  have hchild : chainGraph (pageUrl k) = [pageUrl (k + 1)] := by
    rw [chainGraph]
    rw [pageUrl_succ]
  have hcont : ((stateAt k).visited).contains (pageUrl (k + 1)) = false := by
    simp only [stateAt]
    simpa using pageUrl_not_mem_map_range (k + 1) (k + 1) (le_refl _)
  have hdepth : k + 1 ≤ (chainConfig N).maxDepth := hk
  have hscore : scoreOf (chainConfig N) (pageUrl (k + 1)) = 0 := rfl
  rw [hchild, pushChildren]
  simp only [List.foldl_cons, List.foldl_nil, pushStep, hcont, hscore,
    chainAdmit_chainConfig]
  simp [hdepth, stateAt, List.range_succ]

theorem chain_step (N k fuel : Nat) (hk : k < N) :
    crawlLoop chainGraph (chainConfig N) (fuel + 1) (stateAt k) =
      crawlLoop chainGraph (chainConfig N) fuel (stateAt (k + 1)) := by
  have hguard : ¬ (chainConfig N).maxPages ≤ (stateAt k).pagesFetched := by
    show ¬ N ≤ k
    omega
  have hpop : popFrontier (chainConfig N).mode (stateAt k).frontier =
      some (⟨pageUrl k, k, 0⟩, []) := rfl
  rw [crawlLoop, if_neg hguard, hpop]
  have harg : (⟨(pushChildren (chainConfig N) k (chainGraph (pageUrl k))
        ([], (stateAt k).visited)).1,
      (pushChildren (chainConfig N) k (chainGraph (pageUrl k))
        ([], (stateAt k).visited)).2,
      (stateAt k).pagesFetched + 1,
      (stateAt k).results ++ [⟨pageUrl k, k, 0⟩]⟩ : CrawlState) =
      stateAt (k + 1) := by
    rw [chain_push N k hk]
    show (⟨[⟨pageUrl (k + 1), k + 1, 0⟩], (List.range (k + 2)).map pageUrl,
      k + 1, (stateAt k).results ++ [⟨pageUrl k, k, 0⟩]⟩ : CrawlState) =
      stateAt (k + 1)
    simp [stateAt, List.range_succ]
  exact congrArg (crawlLoop chainGraph (chainConfig N) fuel) harg

theorem chain_run (N : Nat) : ∀ fuel j, j ≤ N → N ≤ j + fuel →
    crawlLoop chainGraph (chainConfig N) fuel (stateAt j) = stateAt N := by
  intro fuel
  induction fuel with
  | zero =>
    intro j hj hN
    have hjN : j = N := by omega
    rw [hjN, crawlLoop]
  | succ fuel ih =>
    intro j hj hN
    by_cases hjN : j = N
    · rw [hjN, crawlLoop, if_pos (show (chainConfig N).maxPages ≤
          (stateAt N).pagesFetched from le_refl N)]
    · have hlt : j < N := by omega
      rw [chain_step N j fuel hlt]
      exact ih (j + 1) (by omega) (by omega)

theorem chain_init (N : Nat) : initState (chainConfig N) (pageUrl 0) = stateAt 0 := by
  simp [initState, stateAt, scoreOf, chainConfig, create_bfs_strategy,
    List.range_succ]

/-- C2. Page budget: in every crawl session `pages_fetched` never exceeds
the configured `max_pages` (and hence neither does the number of emitted
results), and a BFS crawl configured through `create_bfs_strategy` with
`max_pages = N` over an infinite chain graph (at least `N` reachable
admissible pages) emits exactly `N` results and then stops: every fuel
bound of at least `N` yields the same final state with exactly `N`
results. -/
theorem c2_page_budget :
    (∀ (g : String → List String) (cfg : CrawlerRunConfig) (seed : String)
        (fuel : Nat),
       (crawl g cfg seed fuel).pagesFetched ≤ cfg.maxPages ∧
       (crawl g cfg seed fuel).results.length ≤ cfg.maxPages) ∧
    (∀ N fuel, 0 < N → N ≤ fuel →
       (crawl chainGraph (chainConfig N) (pageUrl 0) fuel).results.length = N ∧
       (crawl chainGraph (chainConfig N) (pageUrl 0) fuel).pagesFetched = N) := by
  constructor
  · intro g cfg seed fuel
    have h1 := crawlLoop_budget g cfg fuel (initState cfg seed)
      (by simp [initState])
    have h2 := crawlLoop_results_length g cfg fuel (initState cfg seed)
      (by simp [initState])
    rw [crawl]
    exact ⟨h1, by omega⟩
  · intro N fuel hN hfuel
    rw [crawl, chain_init, chain_run N fuel 0 (by omega) (by omega)]
    constructor
    · simp [stateAt]
    · rfl

theorem popBest_mem (l : List FrontierEntry) :
    ∀ e rest, popBest l = some (e, rest) → e ∈ l ∧ ∀ x ∈ rest, x ∈ l := by
  induction l with
  | nil => intro e rest h; simp [popBest] at h
  | cons a as ih =>
    intro e rest h
    rw [popBest] at h
    cases hp : popBest as with
    | none =>
      rw [hp] at h
      simp only [Option.some.injEq, Prod.mk.injEq] at h
      obtain ⟨he, hr⟩ := h
      rw [← he, ← hr]
      exact ⟨List.mem_cons_self a as, fun x hx => List.mem_cons_of_mem a hx⟩
    | some br =>
      cases br with
      | mk b rest2 =>
        rw [hp] at h
        have h3 : (if b.score > a.score then some (b, a :: rest2)
            else some (a, as)) = some (e, rest) := h
        have hbr := ih b rest2 hp
        by_cases hs : b.score > a.score
        · rw [if_pos hs] at h3
          simp only [Option.some.injEq, Prod.mk.injEq] at h3
          obtain ⟨he, hr⟩ := h3
          rw [← he, ← hr]
          refine ⟨List.mem_cons_of_mem a hbr.1, ?_⟩
          intro x hx
          cases hx with
          | head => exact List.mem_cons_self a as
          | tail _ hm => exact List.mem_cons_of_mem a (hbr.2 x hm)
        · rw [if_neg hs] at h3
          simp only [Option.some.injEq, Prod.mk.injEq] at h3
          obtain ⟨he, hr⟩ := h3
          rw [← he, ← hr]
          exact ⟨List.mem_cons_self a as, fun x hx => List.mem_cons_of_mem a hx⟩

theorem popFrontier_mem (mode : CrawlMode) (l : List FrontierEntry)
    (e : FrontierEntry) (rest : List FrontierEntry)
    (h : popFrontier mode l = some (e, rest)) :
    e ∈ l ∧ ∀ x ∈ rest, x ∈ l := by
  cases mode with
  | bfs =>
    cases l with
    | nil => simp [popFrontier] at h
    | cons a as =>
      rw [popFrontier] at h
      simp only [Option.some.injEq, Prod.mk.injEq] at h
      obtain ⟨he, hr⟩ := h
      rw [← he, ← hr]
      exact ⟨List.mem_cons_self a as, fun x hx => List.mem_cons_of_mem a hx⟩
  | bestFirst =>
    cases l with
    | nil => simp [popFrontier] at h
    | cons a as => exact popBest_mem (a :: as) e rest h

theorem pushStep_preserve (cfg : CrawlerRunConfig) (domain : String)
    (hdom : cfg.filterChain.allowedDomains = [domain]) (d : Nat)
    (fv : List FrontierEntry × List String) (c : String)
    (hf : ∀ e ∈ fv.1, onSiteDomain domain e.url = true) :
    ∀ e ∈ (pushStep cfg d fv c).1, onSiteDomain domain e.url = true := by
  intro e he
  rw [pushStep] at he
  by_cases h1 : fv.2.contains c = true
  · rw [if_pos h1] at he
    exact hf e he
  · rw [if_neg h1] at he
    by_cases h2 : (d + 1 ≤ cfg.maxDepth && chainAdmit cfg.filterChain c none) = true
    · rw [if_pos h2] at he
      simp only [List.mem_append, List.mem_singleton] at he
      cases he with
      | inl hm => exact hf e hm
      | inr hnew =>
        rw [hnew]
        have hadmit : chainAdmit cfg.filterChain c none = true :=
          (Bool.and_eq_true _ _ |>.mp h2).2
        have hdomf : domainFilterPass cfg.filterChain.allowedDomains c = true := by
          rw [chainAdmit] at hadmit
          exact (Bool.and_eq_true _ _ |>.mp hadmit).1
        rw [hdom] at hdomf
        simpa [domainFilterPass] using hdomf
    · rw [if_neg h2] at he
      exact hf e he

theorem pushChildren_preserve (cfg : CrawlerRunConfig) (domain : String)
    (hdom : cfg.filterChain.allowedDomains = [domain]) :
    ∀ (children : List String) (d : Nat)
      (fv : List FrontierEntry × List String),
      (∀ e ∈ fv.1, onSiteDomain domain e.url = true) →
      ∀ e ∈ (pushChildren cfg d children fv).1,
        onSiteDomain domain e.url = true := by
  intro children
  induction children with
  | nil => intro d fv hf e he; exact hf e he
  | cons c cs ih =>
    intro d fv hf e he
    rw [pushChildren, List.foldl_cons] at he
    exact ih d (pushStep cfg d fv c)
      (pushStep_preserve cfg domain hdom d fv c hf) e he

theorem crawlLoop_domain (g : String → List String) (cfg : CrawlerRunConfig)
    (domain : String) (hdom : cfg.filterChain.allowedDomains = [domain]) :
    ∀ fuel s, (∀ e ∈ s.frontier, onSiteDomain domain e.url = true) →
      (∀ e ∈ s.results, onSiteDomain domain e.url = true) →
      (∀ e ∈ (crawlLoop g cfg fuel s).frontier,
         onSiteDomain domain e.url = true) ∧
      (∀ e ∈ (crawlLoop g cfg fuel s).results,
         onSiteDomain domain e.url = true) := by
  intro fuel
  induction fuel with
  | zero => intro s hf hr; exact ⟨hf, hr⟩
  | succ fuel ih =>
    intro s hf hr
    rw [crawlLoop]
    by_cases hguard : cfg.maxPages ≤ s.pagesFetched
    · rw [if_pos hguard]; exact ⟨hf, hr⟩
    · rw [if_neg hguard]
      cases hpop : popFrontier cfg.mode s.frontier with
      | none => exact ⟨hf, hr⟩
      | some er =>
        cases er with
        | mk e rest =>
          have hm := popFrontier_mem cfg.mode s.frontier e rest hpop
          apply ih
          · exact pushChildren_preserve cfg domain hdom (g e.url) e.depth
              (rest, s.visited) (fun x hx => hf x (hm.2 x hx))
          · intro x hx
            simp only [List.mem_append, List.mem_singleton] at hx
            cases hx with
            | inl hmem => exact hr x hmem
            | inr heq => rw [heq]; exact hf e hm.1

/-- C1. Domain containment: for a crawl strategy wired by
`web_content_discovery` (BFS via `create_bfs_strategy`) or `smart_crawl`
(best-first via `create_bfcs_strategy`), started from a seed on the
configured domain, every emitted result's URL host is the configured
`site_domain` or a subdomain of it, and every URL ever placed on the
frontier is as well — external-domain URLs are never fetched or enqueued,
in both BFS and best-first mode. -/
theorem c1_domain_containment
    (fsys : String → Option (List (List Char))) (env : Env) (domain : String)
    (url_patterns : List String) (max_pages : Nat)
    (g : String → List String) (seed : String) (fuel : Nat) :
    (∀ cfg env1,
       web_content_discovery fsys env domain url_patterns max_pages =
         (.ok cfg, env1) →
       onSiteDomain domain seed = true →
       (∀ e ∈ (crawl g cfg seed fuel).results,
          onSiteDomain domain e.url = true) ∧
       (∀ e ∈ (crawl g cfg seed fuel).frontier,
          onSiteDomain domain e.url = true)) ∧
    (∀ cfg env1,
       smart_crawl fsys env domain = (.ok cfg, env1) →
       onSiteDomain domain seed = true →
       (∀ e ∈ (crawl g cfg seed fuel).results,
          onSiteDomain domain e.url = true) ∧
       (∀ e ∈ (crawl g cfg seed fuel).frontier,
          onSiteDomain domain e.url = true)) := by
  constructor
  · intro cfg env1 h hseed
    have hdom : cfg.filterChain.allowedDomains = [domain] := by
      rw [web_content_discovery] at h
      cases hc : configure_proxies fsys env with
      | mk res env2 =>
        rw [hc] at h
        cases res with
        | error e => simp at h
        | ok pr =>
          cases pr with
          | mk cfgs strat =>
            simp only [Prod.mk.injEq, Except.ok.injEq] at h
            rw [← h.1]
            rfl
    have hinv := crawlLoop_domain g cfg domain hdom fuel (initState cfg seed)
      (by
        intro e he
        simp only [initState, List.mem_singleton] at he
        rw [he]
        exact hseed)
      (by intro e he; simp [initState] at he)
    exact ⟨hinv.2, hinv.1⟩
  · intro cfg env1 h hseed
    have hdom : cfg.filterChain.allowedDomains = [domain] := by
      rw [smart_crawl] at h
      cases hc : configure_proxies fsys env with
      | mk res env2 =>
        rw [hc] at h
        cases res with
        | error e => simp at h
        | ok pr =>
          cases pr with
          | mk cfgs strat =>
            simp only [Prod.mk.injEq, Except.ok.injEq] at h
            rw [← h.1]
            rfl
    have hinv := crawlLoop_domain g cfg domain hdom fuel (initState cfg seed)
      (by
        intro e he
        simp only [initState, List.mem_singleton] at he
        rw [he]
        exact hseed)
      (by intro e he; simp [initState] at he)
    exact ⟨hinv.2, hinv.1⟩

/-! ### Concrete fixtures and witnesses -/

/-- A concrete two-record proxy file. -/
def proxyLines0 : List (List Char) :=
  ["1.1.1.1:80:u:p".toList, "2.2.2.2:81:v:q".toList]

/-- A concrete file system holding the proxy file. -/
def fsys0 : String → Option (List (List Char)) := fun p =>
  if p = "proxies.txt" then some proxyLines0 else none

/-- A concrete environment pointing at the proxy file. -/
def env0 : Env := ⟨[("PROXIES_FILE", "proxies.txt")]⟩

/-- The proxy entries parsed from `proxyLines0`. -/
def cfgs0 : List ProxyCfg :=
  [⟨"1.1.1.1", "80", "u", "p"⟩, ⟨"2.2.2.2", "81", "v", "q"⟩]

/-- The rotator built over `cfgs0`. -/
def rot0 : RoundRobin := ⟨cfgs0, 0⟩

theorem c3_proxy_rotation_round_robin_witness :
    rot0.entries = cfgs0 ∧ rot0.cursor = 0 ∧ cfgs0 ≠ [] ∧
    (∃ proxies, (load_proxies_from_file fsys0 env0 none).1 = .ok proxies ∧
       cfgs0 = proxies.map proxyConfigFromString) ∧
    (∀ k, proxyAt rot0 k = cfgs0.getD (k % cfgs0.length) dummyProxy) ∧
    (List.range cfgs0.length).map (fun k => proxyAt rot0 k) = cfgs0 ∧
    (∀ k, proxyAt rot0 (k + cfgs0.length) = proxyAt rot0 k) :=
  c3_proxy_rotation_round_robin fsys0 env0 cfgs0 rot0 _ rfl

/-- The BFS configuration `web_content_discovery` assembles over `fsys0` /
`env0` for domain `example.com`, patterns `["*"]` and a budget of 2. -/
def cfgW : CrawlerRunConfig :=
  create_bfs_strategy (get_filter ["example.com"] ["*"] ["text/html"]) rot0
    bfsDefaultMaxDepth 2

theorem c1_domain_containment_witness :
    (∀ e ∈ (crawl (fun _ => ([] : List String)) cfgW
        "https://example.com/" 5).results,
       onSiteDomain "example.com" e.url = true) ∧
    (∀ e ∈ (crawl (fun _ => ([] : List String)) cfgW
        "https://example.com/" 5).frontier,
       onSiteDomain "example.com" e.url = true) :=
  (c1_domain_containment fsys0 env0 "example.com" ["*"] 2
    (fun _ => []) "https://example.com/" 5).1 cfgW _ rfl (by decide)

theorem c2_page_budget_witness :
    (crawl chainGraph (chainConfig 2) (pageUrl 0) 3).results.length = 2 ∧
    (crawl chainGraph (chainConfig 2) (pageUrl 0) 3).pagesFetched = 2 :=
  c2_page_budget.2 2 3 (by decide) (by decide)

/-- A proxy file whose second line is malformed. -/
def badFile : List (List Char) := ["1.1.1.1:80:u:p".toList, "oops".toList]

theorem c4_malformed_record_aborts_loading_witness :
    ∃ j, j < badFile.length ∧ badLine (badFile.getD j []) = true ∧
      (load_proxies_from_file
        (fun p => if p = "bad.txt" then some badFile else none)
        env0 (some "bad.txt")).1 =
        .error (.invalidLine (1 + j) (trimChars (badFile.getD j []))) ∧
      ∀ ps, (load_proxies_from_file
        (fun p => if p = "bad.txt" then some badFile else none)
        env0 (some "bad.txt")).1 ≠ .ok ps :=
  c4_malformed_record_aborts_loading
    (fun p => if p = "bad.txt" then some badFile else none)
    env0 "bad.txt" badFile (by decide) rfl (by decide)

/-- A file holding only a blank line. -/
def blankFile : List (List Char) := [" ".toList]

/-- A file system holding only the blank proxy file. -/
def fsysB : String → Option (List (List Char)) := fun p =>
  if p = "blank.txt" then some blankFile else none

/-- An environment pointing at the blank proxy file. -/
def envB : Env := ⟨[("PROXIES_FILE", "blank.txt")]⟩

theorem c5_zero_proxies_fail_fast_witness :
    ∃ e, (configure_proxies fsysB envB).1 = .error e :=
  (c5_zero_proxies_fail_fast fsysB envB).1
    (Or.inr (Or.inr (Or.inr ⟨"blank.txt", blankFile, rfl, by decide, rfl,
      by decide, by decide⟩)))

theorem c6_relevance_scoring_witness :
    0 ≤ keywordRelevanceScore
      (get_relevance_filter ["news", "daily"] (7 / 10)) "Daily News digest" ∧
    keywordRelevanceScore
      (get_relevance_filter ["news", "daily"] (7 / 10)) "Daily News digest" ≤ 1 ∧
    ((∀ k ∈ ["news", "daily"], keywordHit "Daily News digest" k = false) →
       keywordRelevanceScore
         (get_relevance_filter ["news", "daily"] (7 / 10)) "Daily News digest" = 0) ∧
    keywordRelevanceScore
      (get_relevance_filter ["news", "daily"] (7 / 10)) "Daily News digest" =
      (7 / 10 : ℚ) *
        (((["news", "daily"].countP
            (fun k => keywordHit "Daily News digest" k)) : ℚ) /
          ((["news", "daily"] : List String).length : ℚ)) :=
  c6_relevance_scoring ["news", "daily"] (7 / 10) "Daily News digest"
    (by norm_num) (by norm_num)

/-- A configuration file system whose document carries a negative
`max_pages`. -/
def fsysC8 : String → Option JsonVal := fun p =>
  if p = "config.json" then some (.jobj (configFields "example.com" [] (-3)))
  else none

theorem c8_config_validation_shape_only_witness :
    from_config_file fsysC8 "config.json" = .ok ⟨"example.com", [], -3⟩ :=
  c8_config_validation_shape_only.1 fsysC8 "config.json" "example.com" [] (-3)
    rfl

theorem c9_extra_fields_ignored_witness :
    model_validate
      (.jobj (("telemetry", .jstr "on") :: configFields "example.com" [] 1)) =
      .ok ⟨"example.com", [], 1⟩ :=
  c9_extra_fields_ignored "example.com" [] 1 "telemetry" (.jstr "on")
    (by decide) (by decide) (by decide)

theorem c10_env_side_effects_atomic_witness :
    ((load_proxies_from_file (fun _ => none) env0 none).2 = env0) ∧
    (envGet (load_proxies_from_file fsys0 env0 none).2 "PROXY_COUNT" =
       some (toString proxyLines0.length) ∧
     envGet (load_proxies_from_file fsys0 env0 none).2 "PROXIES" =
       some (String.mk (joinComma proxyLines0)) ∧
     ∃ p lines, fsys0 p = some lines ∧
       proxyLines0 = (lines.map trimChars).filter (fun s => !s.isEmpty)) :=
  ⟨(c10_env_side_effects_atomic (fun _ => none) env0 none).1
     (.fileNotFound "proxies.txt") rfl,
   (c10_env_side_effects_atomic fsys0 env0 none).2 proxyLines0 rfl⟩
